import Mathlib

/-!
Verification of the core modules of the uart-bluetooth embedded control stack:
the energy-mode arbiter (`sleep_routines.c`), the deferred-event scheduler
(`scheduler.c`), and the I2C bus-transaction state machine (`i2c.c`).

Modelling conventions:
* C functions become Lean functions over explicit state values.
* `EFM_ASSERT(p)` failing (execution halts) is modelled by returning
  `Option.none`; a successful call returns `some` of the new state.
* Machine integers are `Nat`/`Int`; 32-bit overflow and bitwise complement
  are made explicit with `% 2 ^ 32` and `(2 ^ 32 - 1) ^^^ ·` where they
  matter.
* Hardware register writes (`TXDATA`, `CMD`) are recorded as an output list
  of `HwAction`s; posting to the scheduler is recorded both in the scheduler
  bitmask and as an output list of posted event ids.
-/

/-- Modelled from the spec: `sleep_routines.h` is not among the source files.
The energy-mode constants are reconstructed from their uses: `enter_sleep`
consults the counters `EM0`..`EM3` and falls through to the deepest mode,
and `sleep_block_mode` sanity-bounds every counter at 5, so the mode set is
the five levels `EM0 = 0` .. `EM4 = 4` with `MAX_ENERGY_MODES = 5`. -/
def MAX_ENERGY_MODES : Nat := 5

/-- The per-mode vote counters `static int lowest_energy_modes[MAX_ENERGY_MODES]`
of `sleep_routines.c`, as a total map from mode index to the C `int` value. -/
def EMState : Type := Fin MAX_ENERGY_MODES → Int

instance : DecidableEq EMState := fun f g =>
  decidable_of_iff
    (f ⟨0, by decide⟩ = g ⟨0, by decide⟩ ∧ f ⟨1, by decide⟩ = g ⟨1, by decide⟩ ∧
      f ⟨2, by decide⟩ = g ⟨2, by decide⟩ ∧ f ⟨3, by decide⟩ = g ⟨3, by decide⟩ ∧
      f ⟨4, by decide⟩ = g ⟨4, by decide⟩)
    (by
      constructor
      · rintro ⟨h0, h1, h2, h3, h4⟩
        funext j
        rcases j with ⟨jv, hj⟩
        have hj5 : jv < 5 := hj
        interval_cases jv <;> assumption
      · intro h
        exact ⟨congrFun h _, congrFun h _, congrFun h _, congrFun h _, congrFun h _⟩)

/-- Modelled from the spec: energy-mode index `EM0` (missing `sleep_routines.h`). -/
def EM0 : Fin MAX_ENERGY_MODES := ⟨0, by decide⟩

/-- Modelled from the spec: energy-mode index `EM1` (missing `sleep_routines.h`). -/
def EM1 : Fin MAX_ENERGY_MODES := ⟨1, by decide⟩

/-- Modelled from the spec: energy-mode index `EM2` (missing `sleep_routines.h`). -/
def EM2 : Fin MAX_ENERGY_MODES := ⟨2, by decide⟩

/-- Modelled from the spec: energy-mode index `EM3` (missing `sleep_routines.h`). -/
def EM3 : Fin MAX_ENERGY_MODES := ⟨3, by decide⟩

/-- Modelled from the spec: energy-mode index `EM4` (missing `sleep_routines.h`). -/
def EM4 : Fin MAX_ENERGY_MODES := ⟨4, by decide⟩

/-- `sleep_open` of `sleep_routines.c`: zeroes the counters with the loop
`for(int i = 0; i < MAX_ENERGY_MODES - 1; i++) lowest_energy_modes[i] = 0;`. -/
def sleep_open (s : EMState) : EMState :=
  (List.range (MAX_ENERGY_MODES - 1)).foldl
    (fun acc i => fun j => if j.val = i then 0 else acc j) s

/-- `sleep_block_mode` of `sleep_routines.c`: increments the counter for `EM`,
then `EFM_ASSERT(lowest_energy_modes[EM] < 5)`; assertion failure is `none`. -/
def sleep_block_mode (s : EMState) (EM : Fin MAX_ENERGY_MODES) : Option EMState :=
  let s' : EMState := fun j => if j = EM then s j + 1 else s j
  if s' EM < 5 then some s' else none

/-- `sleep_unblock_mode` of `sleep_routines.c`: decrements the counter for `EM`,
then `EFM_ASSERT(lowest_energy_modes[EM] >= 0)`; assertion failure is `none`. -/
def sleep_unblock_mode (s : EMState) (EM : Fin MAX_ENERGY_MODES) : Option EMState :=
  let s' : EMState := fun j => if j = EM then s j - 1 else s j
  if 0 ≤ s' EM then some s' else none

/-- The low-power transition selected by `enter_sleep`: either no transition
(the two early `return`s) or one of the `EMU_EnterEM1/2/3` calls. -/
inductive SleepTransition
  | stayAwake
  | enterEM1
  | enterEM2
  | enterEM3
deriving DecidableEq

/-- The sleep depth actually entered by a transition, if any
(`stayAwake` performs no transition and enters no sleep mode). -/
def SleepTransition.enteredMode : SleepTransition → Option Nat
  | SleepTransition.stayAwake => none
  | SleepTransition.enterEM1 => some 1
  | SleepTransition.enterEM2 => some 2
  | SleepTransition.enterEM3 => some 3

/-- `enter_sleep` of `sleep_routines.c`: the cascade of counter tests choosing
which `EMU_EnterEMx` call to issue (the counters themselves are not mutated). -/
def enter_sleep (s : EMState) : SleepTransition :=
  if s EM0 > 0 then SleepTransition.stayAwake
  else if s EM1 > 0 then SleepTransition.stayAwake
  else if s EM2 > 0 then SleepTransition.enterEM1
  else if s EM3 > 0 then SleepTransition.enterEM2
  else SleepTransition.enterEM3

/-- The `while (i < MAX_ENERGY_MODES)` scan of `current_block_energy_mode`,
started at index `i`; the loop runs at most `MAX_ENERGY_MODES` times, made
explicit with a fuel argument so the recursion is structural. -/
def cbem_loop (s : EMState) : Nat → Nat → Nat
  | 0, _ => MAX_ENERGY_MODES - 1
  | fuel + 1, i =>
    if h : i < MAX_ENERGY_MODES then
      if s ⟨i, h⟩ ≠ 0 then i else cbem_loop s fuel (i + 1)
    else
      MAX_ENERGY_MODES - 1

/-- `current_block_energy_mode` of `sleep_routines.c`: scans the counters from
index 0 upward, returns the first nonzero index, else `MAX_ENERGY_MODES - 1`. -/
def current_block_energy_mode (s : EMState) : Nat :=
  cbem_loop s MAX_ENERGY_MODES 0

/-- One call into the energy-mode arbiter. -/
inductive SleepCall
  | block (em : Fin MAX_ENERGY_MODES)
  | unblock (em : Fin MAX_ENERGY_MODES)
deriving DecidableEq

/-- Executes a sequence of arbiter calls, halting (as the hardware would) at
the first failed `EFM_ASSERT`. -/
def sleep_run (s : EMState) : List SleepCall → Option EMState
  | [] => some s
  | c :: cs =>
    match (match c with
           | SleepCall.block em => sleep_block_mode s em
           | SleepCall.unblock em => sleep_unblock_mode s em) with
    | none => none
    | some s' => sleep_run s' cs

/-- Number of `block em` calls in a call sequence. -/
def blockCount (em : Fin MAX_ENERGY_MODES) : List SleepCall → Nat
  | [] => 0
  | SleepCall.block e :: cs => (if e = em then 1 else 0) + blockCount em cs
  | SleepCall.unblock _ :: cs => blockCount em cs

/-- Number of `unblock em` calls in a call sequence. -/
def unblockCount (em : Fin MAX_ENERGY_MODES) : List SleepCall → Nat
  | [] => 0
  | SleepCall.block _ :: cs => unblockCount em cs
  | SleepCall.unblock e :: cs => (if e = em then 1 else 0) + unblockCount em cs

/-- A call sequence is pairwise balanced per level when every level sees as
many `block` calls as `unblock` calls. -/
def balanced (cs : List SleepCall) : Prop :=
  ∀ em : Fin MAX_ENERGY_MODES, blockCount em cs = unblockCount em cs

instance (cs : List SleepCall) : Decidable (balanced cs) :=
  decidable_of_iff
    (blockCount EM0 cs = unblockCount EM0 cs ∧
      blockCount EM1 cs = unblockCount EM1 cs ∧
      blockCount EM2 cs = unblockCount EM2 cs ∧
      blockCount EM3 cs = unblockCount EM3 cs ∧
      blockCount EM4 cs = unblockCount EM4 cs)
    (by
      constructor
      · rintro ⟨h0, h1, h2, h3, h4⟩ em
        rcases em with ⟨v, hv⟩
        have hv5 : v < 5 := hv
        interval_cases v <;> assumption
      · intro h
        exact ⟨h EM0, h EM1, h EM2, h EM3, h EM4⟩)

/-- The all-zero counter state established by system startup. -/
def em_zero : EMState := fun _ => 0

/-- Claim C4 exactly as stated: for balanced call sequences from the startup
state, `current_block_energy_mode` is restored at the end, and at every
instant its value is `≥` the level of any call currently outstanding. -/
def C4_as_stated : Prop :=
  ∀ cs : List SleepCall, balanced cs →
    (∀ s', sleep_run em_zero cs = some s' →
      current_block_energy_mode s' = current_block_energy_mode em_zero) ∧
    (∀ (p q : List SleepCall) (s' : EMState) (em : Fin MAX_ENERGY_MODES),
      cs = p ++ q → sleep_run em_zero p = some s' →
      unblockCount em p < blockCount em p →
      em.val ≤ current_block_energy_mode s')

/-- `add_scheduled_event` of `scheduler.c`: `event_scheduled |= event`. -/
def add_scheduled_event (sched event : Nat) : Nat :=
  sched ||| event

/-- `remove_scheduled_event` of `scheduler.c`: `event_scheduled &= ~event`,
with the complement taken on the 32-bit `unsigned int`. -/
def remove_scheduled_event (sched event : Nat) : Nat :=
  sched &&& ((2 ^ 32 - 1) ^^^ event)

/-- `get_scheduled_events` of `scheduler.c`: returns the pending bitmask. -/
def get_scheduled_events (sched : Nat) : Nat :=
  sched

/-- The C bitwise complement `~x` applied to a 32-bit `unsigned int` value. -/
def not32 (x : Nat) : Nat :=
  (2 ^ 32 - 1) ^^^ x

/-- The C post-decrement `x--` on a 32-bit unsigned counter (wraps at zero). -/
def dec32 (x : Nat) : Nat :=
  if x = 0 then 2 ^ 32 - 1 else x - 1

/-- `OPERATION_MODE` of `i2c.h`: `write = 0`, `read = 1`. -/
inductive OPERATION_MODE
  | write
  | read
deriving DecidableEq

/-- The numeric value of an `OPERATION_MODE`, as used in the C enum and in the
read/write bit of the address byte. -/
def OPERATION_MODE.toNat : OPERATION_MODE → Nat
  | OPERATION_MODE.write => 0
  | OPERATION_MODE.read => 1

/-- `DEFINED_STATES` of `i2c.h` (source spelling kept, including `recieve`). -/
inductive DEFINED_STATES
  | initialize_device_write
  | write_desired_register
  | initialize_device_read
  | write_data
  | recieve_data
  | stop
deriving DecidableEq

/-- `I2C_STATE_MACHINE` of `i2c.h`. The hardware handle `i2cx` is not
modelled; `data` holds the value of the `uint32_t` the C `data` pointer
points at (the transaction's buffer word). -/
structure I2C_STATE_MACHINE where
  device_address : Nat
  available : Bool
  mode : OPERATION_MODE
  num_of_data_bytes : Nat
  desired_register_address : Nat
  data : Nat
  I2C_CB : Nat
  current_state : DEFINED_STATES
deriving DecidableEq

/-- A write to an I2C hardware register performed by a handler:
a `TXDATA` byte or one of the `CMD` strobes. -/
inductive HwAction
  | txdata (b : Nat)
  | cmdStart
  | cmdStop
  | cmdAck
  | cmdNack
deriving DecidableEq

/-- `Ack_Func` of `i2c.c`: services an ACK interrupt. Returns the updated
machine and the hardware register writes performed, or `none` when the
switch hits `EFM_ASSERT(false)`. The `initialize_device_read` and
`recieve_data` cases are the bare `break`s of the C switch. -/
def Ack_Func (sm : I2C_STATE_MACHINE) : Option (I2C_STATE_MACHINE × List HwAction) :=
  match sm.current_state with
  | DEFINED_STATES.initialize_device_write =>
    (match sm.mode with
     | OPERATION_MODE.read =>
       some ({ sm with current_state := DEFINED_STATES.write_desired_register },
             [HwAction.txdata sm.desired_register_address])
     | OPERATION_MODE.write =>
       some ({ sm with current_state := DEFINED_STATES.write_data },
             [HwAction.txdata sm.desired_register_address]))
  | DEFINED_STATES.write_desired_register =>
    some ({ sm with current_state := DEFINED_STATES.initialize_device_read },
          [HwAction.cmdStart,
           HwAction.txdata ((sm.device_address <<< 1) ||| OPERATION_MODE.toNat OPERATION_MODE.read)])
  | DEFINED_STATES.initialize_device_read =>
    some (sm, [])
  | DEFINED_STATES.write_data =>
    let n := dec32 sm.num_of_data_bytes
    let tx := (sm.data >>> (8 * n)) &&& 0xff
    if n = 0 then
      some ({ sm with num_of_data_bytes := n, current_state := DEFINED_STATES.recieve_data },
            [HwAction.txdata tx, HwAction.cmdStop])
    else
      some ({ sm with num_of_data_bytes := n }, [HwAction.txdata tx])
  | DEFINED_STATES.recieve_data =>
    some (sm, [])
  | DEFINED_STATES.stop =>
    none

/-- `Rxdatav_Func` of `i2c.c`: services a receive-data-available interrupt,
`rxdata` being the byte read from the `RXDATA` register. Stores the byte at
the position implied by the decremented count (big-endian packing into the
32-bit buffer word), then either ACKs and stays, or NACKs, stops and
advances; every other state hits `EFM_ASSERT(false)`. -/
def Rxdatav_Func (sm : I2C_STATE_MACHINE) (rxdata : Nat) :
    Option (I2C_STATE_MACHINE × List HwAction) :=
  match sm.current_state with
  | DEFINED_STATES.initialize_device_write => none
  | DEFINED_STATES.write_desired_register => none
  | DEFINED_STATES.initialize_device_read =>
    let n := dec32 sm.num_of_data_bytes
    let d := ((sm.data &&& not32 (0xff <<< (8 * n))) ||| (rxdata <<< (8 * n))) % 2 ^ 32
    if n > 0 then
      some ({ sm with num_of_data_bytes := n, data := d }, [HwAction.cmdAck])
    else
      some ({ sm with num_of_data_bytes := n, data := d,
                      current_state := DEFINED_STATES.recieve_data },
            [HwAction.cmdNack, HwAction.cmdStop])
  | DEFINED_STATES.write_data => none
  | DEFINED_STATES.recieve_data => none
  | DEFINED_STATES.stop => none

/-- `I2C_EM_BLOCK` of `i2c.h`: the energy mode blocked for the duration of a
transaction, `EM2`. -/
def I2C_EM_BLOCK : Fin MAX_ENERGY_MODES := EM2

/-- The state touched by one I2C bus instance together with the process-wide
scheduler bitmask and energy-mode counters. -/
structure SysState where
  i2c : I2C_STATE_MACHINE
  sleep : EMState
  sched : Nat
deriving DecidableEq

/-- `Stop_Func` of `i2c.c`: services an MSTOP interrupt. In `recieve_data` it
releases the arbiter vote, marks the instance available, resets the state and
posts the completion event; every other state hits `EFM_ASSERT(false)`. The
third output component lists the event ids posted to the scheduler. -/
def Stop_Func (sys : SysState) : Option (SysState × List HwAction × List Nat) :=
  match sys.i2c.current_state with
  | DEFINED_STATES.initialize_device_write => none
  | DEFINED_STATES.write_desired_register => none
  | DEFINED_STATES.initialize_device_read => none
  | DEFINED_STATES.write_data => none
  | DEFINED_STATES.recieve_data =>
    (match sleep_unblock_mode sys.sleep I2C_EM_BLOCK with
     | none => none
     | some sl =>
       some ({ i2c := { sys.i2c with
                        available := true,
                        current_state := DEFINED_STATES.initialize_device_write },
               sleep := sl,
               sched := add_scheduled_event sys.sched sys.i2c.I2C_CB },
             [], [sys.i2c.I2C_CB]))
  | DEFINED_STATES.stop => none

/-- `i2c_start` of `i2c.c`: issues a transaction. The C `while(!available);`
busy-wait means the call is not accepted while the instance is unavailable,
modelled as `none`; once available, it takes the arbiter vote, clears
`available`, initializes the machine and issues the start plus the address
byte in write mode. The `EFM_ASSERT` on the hardware `STATE` register is
outside the modelled state. -/
def i2c_start (sys : SysState) (device_address : Nat) (mode : OPERATION_MODE)
    (data : Nat) (bytes_expected : Nat) (desired_register_address : Nat)
    (app_cb : Nat) : Option (SysState × List HwAction) :=
  if sys.i2c.available = false then none
  else
    match sleep_block_mode sys.sleep I2C_EM_BLOCK with
    | none => none
    | some sl =>
      some ({ i2c := { device_address := device_address,
                       available := false,
                       mode := mode,
                       num_of_data_bytes := bytes_expected,
                       desired_register_address := desired_register_address,
                       data := data,
                       I2C_CB := app_cb,
                       current_state := DEFINED_STATES.initialize_device_write },
              sleep := sl,
              sched := sys.sched },
            [HwAction.cmdStart,
             HwAction.txdata ((device_address <<< 1) ||| OPERATION_MODE.toNat OPERATION_MODE.write)])

/-- A hardware sub-event dispatched by the IRQ handlers of `i2c.c`:
`I2C_IF_ACK`, `I2C_IF_RXDATAV` (with the byte read from `RXDATA`), or
`I2C_IF_MSTOP`. -/
inductive SubEvent
  | ack
  | rxdatav (b : Nat)
  | mstop
deriving DecidableEq

/-- Dispatch of one sub-event to the matching handler, as done by
`I2C0_IRQHandler`/`I2C1_IRQHandler`. -/
def i2c_step (sys : SysState) : SubEvent → Option (SysState × List HwAction × List Nat)
  | SubEvent.ack =>
    (Ack_Func sys.i2c).map (fun p => ({ sys with i2c := p.1 }, p.2, []))
  | SubEvent.rxdatav b =>
    (Rxdatav_Func sys.i2c b).map (fun p => ({ sys with i2c := p.1 }, p.2, []))
  | SubEvent.mstop => Stop_Func sys

/-- Runs a list of sub-events, accumulating the hardware writes and the
posted event ids; `none` as soon as a handler hits a fatal assertion. -/
def i2c_run (sys : SysState) : List SubEvent → Option (SysState × List HwAction × List Nat)
  | [] => some (sys, [], [])
  | e :: es =>
    match i2c_step sys e with
    | none => none
    | some (s', hw, ps) =>
      match i2c_run s' es with
      | none => none
      | some (s'', hw', ps') => some (s'', hw ++ hw', ps ++ ps')

/-- Big-endian packing of a byte list on top of an accumulator: the first
byte of the list lands in the most significant position. -/
def packFrom (P : Nat) (bs : List Nat) : Nat :=
  bs.foldl (fun a b => 256 * a + b) P

/-- Big-endian packing of a byte list, most-significant byte first. -/
def packBytes (bs : List Nat) : Nat :=
  packFrom 0 bs

/-- Modelled from the spec: the sub-event/state transition table of the
specification, mapped onto the source state names (`Idle`/`AwaitAddressAck`
becomes `initialize_device_write`, `AwaitRegisterAck` becomes
`write_desired_register`, `AwaitReadRestartAck` and the receiving phase
become `initialize_device_read`, `WritingData` becomes `write_data`,
`AwaitStop` becomes `recieve_data`). `AddressAcknowledged` is listed for
the address phase, the register phase and `WritingData`; `ByteAvailable`
for the receiving phase; `StopConditionObserved` for `AwaitStop`. -/
def spec_expects : SubEvent → DEFINED_STATES → Bool
  | SubEvent.ack, DEFINED_STATES.initialize_device_write => true
  | SubEvent.ack, DEFINED_STATES.write_desired_register => true
  | SubEvent.ack, DEFINED_STATES.write_data => true
  | SubEvent.rxdatav _, DEFINED_STATES.initialize_device_read => true
  | SubEvent.mstop, DEFINED_STATES.recieve_data => true
  | _, _ => false

/-- Claim C2 exactly as stated: every sub-event delivered in a state that
does not expect it (per the specification's transition table) makes the
handler report a fatal error. -/
def C2_as_stated : Prop :=
  ∀ (sys : SysState) (e : SubEvent),
    spec_expects e sys.i2c.current_state = false →
    i2c_step sys e = none

/-- A concrete I2C instance mid-read: awaiting the restart ACK / receiving
phase of a 2-byte read of register `0x13` with completion id bit 1. -/
def smMidRead : I2C_STATE_MACHINE :=
  { device_address := 0x55,
    available := false,
    mode := OPERATION_MODE.read,
    num_of_data_bytes := 2,
    desired_register_address := 0x13,
    data := 0,
    I2C_CB := 1,
    current_state := DEFINED_STATES.initialize_device_read }

/-- A concrete system state around `smMidRead`: one outstanding `EM2` vote
and an empty scheduler. -/
def sysMidRead : SysState :=
  { i2c := smMidRead,
    sleep := fun j => if j = I2C_EM_BLOCK then 1 else 0,
    sched := 0 }

/-- A concrete idle system state: instance available, counters zero,
scheduler empty. -/
def sysIdle : SysState :=
  { i2c := { device_address := 0,
             available := true,
             mode := OPERATION_MODE.read,
             num_of_data_bytes := 0,
             desired_register_address := 0,
             data := 0,
             I2C_CB := 0,
             current_state := DEFINED_STATES.initialize_device_write },
    sleep := em_zero,
    sched := 0 }

/-! ## Helper lemmas -/

lemma testBit_false_of_lt {x n j : Nat} (hx : x < 2 ^ n) (hj : n ≤ j) :
    x.testBit j = false :=
  Nat.testBit_lt_two_pow (lt_of_lt_of_le hx (Nat.pow_le_pow_right (by norm_num) hj))

lemma cbem_closed (s : EMState) :
    current_block_energy_mode s =
      if s EM0 ≠ 0 then 0 else if s EM1 ≠ 0 then 1 else if s EM2 ≠ 0 then 2
      else if s EM3 ≠ 0 then 3 else 4 := by
  show cbem_loop s MAX_ENERGY_MODES 0 = _
  norm_num [cbem_loop, MAX_ENERGY_MODES, EM0, EM1, EM2, EM3, EM4]

lemma cbem_le_of_ne_zero (s : EMState) (k : Fin MAX_ENERGY_MODES) (hk : s k ≠ 0) :
    current_block_energy_mode s ≤ k.val := by
  rw [cbem_closed]
  fin_cases k <;>
    simp_all only [EM0, EM1, EM2, EM3, EM4] <;>
    split_ifs <;> simp_all

lemma sleep_block_mode_eq (s : EMState) (em : Fin MAX_ENERGY_MODES) :
    sleep_block_mode s em =
      if s em + 1 < 5 then some (fun j => if j = em then s j + 1 else s j)
      else none := by
  simp [sleep_block_mode]

lemma sleep_unblock_mode_eq (s : EMState) (em : Fin MAX_ENERGY_MODES) :
    sleep_unblock_mode s em =
      if 0 ≤ s em - 1 then some (fun j => if j = em then s j - 1 else s j)
      else none := by
  simp [sleep_unblock_mode]

lemma sleep_run_counts : ∀ (cs : List SleepCall) (s0 s' : EMState),
    sleep_run s0 cs = some s' →
    ∀ i, s' i = s0 i + (blockCount i cs : Int) - (unblockCount i cs : Int) := by
  intro cs
  induction cs with
  | nil =>
    intro s0 s' h i
    simp only [sleep_run, Option.some.injEq] at h
    subst h
    simp [blockCount, unblockCount]
  | cons c cs ih =>
    intro s0 s' h i
    cases c with
    | block em =>
      simp only [sleep_run] at h
      rw [sleep_block_mode_eq] at h
      by_cases hg : s0 em + 1 < 5
      · rw [if_pos hg] at h
        have hrec := ih (fun j => if j = em then s0 j + 1 else s0 j) s' h i
        simp only [hrec, blockCount]
        by_cases hie : i = em
        · subst hie; simp [unblockCount]; ring
        · have hei : ¬ (em = i) := fun hc => hie hc.symm
          simp [hie, hei, unblockCount]
      · rw [if_neg hg] at h
        exact Option.noConfusion h
    | unblock em =>
      simp only [sleep_run] at h
      rw [sleep_unblock_mode_eq] at h
      by_cases hg : (0 : Int) ≤ s0 em - 1
      · rw [if_pos hg] at h
        have hrec := ih (fun j => if j = em then s0 j - 1 else s0 j) s' h i
        simp only [hrec, unblockCount]
        by_cases hie : i = em
        · subst hie; simp [blockCount]; ring
        · have hei : ¬ (em = i) := fun hc => hie hc.symm
          simp [hie, hei, blockCount]
      · rw [if_neg hg] at h
        exact Option.noConfusion h

lemma sleep_run_nonneg : ∀ (cs : List SleepCall) (s0 s' : EMState),
    sleep_run s0 cs = some s' → (∀ i, 0 ≤ s0 i) → ∀ i, 0 ≤ s' i := by
  intro cs
  induction cs with
  | nil =>
    intro s0 s' h hpos
    simp only [sleep_run, Option.some.injEq] at h
    subst h; exact hpos
  | cons c cs ih =>
    intro s0 s' h hpos
    cases c with
    | block em =>
      simp only [sleep_run] at h
      rw [sleep_block_mode_eq] at h
      by_cases hg : s0 em + 1 < 5
      · rw [if_pos hg] at h
        refine ih _ _ h (fun i => ?_)
        have hp := hpos i
        show (0 : Int) ≤ if i = em then s0 i + 1 else s0 i
        split_ifs <;> omega
      · rw [if_neg hg] at h
        exact Option.noConfusion h
    | unblock em =>
      simp only [sleep_run] at h
      rw [sleep_unblock_mode_eq] at h
      by_cases hg : (0 : Int) ≤ s0 em - 1
      · rw [if_pos hg] at h
        refine ih _ _ h (fun i => ?_)
        have hp := hpos i
        show (0 : Int) ≤ if i = em then s0 i - 1 else s0 i
        split_ifs with hif
        · rw [hif]; exact hg
        · exact hp
      · rw [if_neg hg] at h
        exact Option.noConfusion h

/-! ## Claims about the energy-mode arbiter and the scheduler -/

/-- C3: `current_block_energy_mode()` returns the shallowest energy-mode
level whose vote counter is nonzero, or the deepest level
(`MAX_ENERGY_MODES - 1`) when every counter is zero. (It is side-effect-free
by construction in this embedding: it is a pure function of the counters.) -/
theorem C3_current_block_energy_mode (s : EMState) :
    ((∀ i : Fin MAX_ENERGY_MODES, s i = 0) →
      current_block_energy_mode s = MAX_ENERGY_MODES - 1) ∧
    (∀ k : Fin MAX_ENERGY_MODES, s k ≠ 0 →
      (∀ j : Fin MAX_ENERGY_MODES, j < k → s j = 0) →
      current_block_energy_mode s = k.val) := by
  constructor
  · intro h
    rw [cbem_closed]
    rw [if_neg (not_not_intro (h EM0)), if_neg (not_not_intro (h EM1)),
        if_neg (not_not_intro (h EM2)), if_neg (not_not_intro (h EM3))]
    rfl
  · intro k hk hlt
    rw [cbem_closed]
    rcases k with ⟨kv, hkv⟩
    have hkv5 : kv < 5 := hkv
    interval_cases kv
    · have hk0 : s EM0 ≠ 0 := hk
      rw [if_pos hk0]
    · have h0 : s EM0 = 0 := hlt EM0 (by exact Fin.mk_lt_mk.mpr (by norm_num))
      have hk1 : s EM1 ≠ 0 := hk
      rw [if_neg (not_not_intro h0), if_pos hk1]
    · have h0 : s EM0 = 0 := hlt EM0 (by exact Fin.mk_lt_mk.mpr (by norm_num))
      have h1 : s EM1 = 0 := hlt EM1 (by exact Fin.mk_lt_mk.mpr (by norm_num))
      have hk2 : s EM2 ≠ 0 := hk
      rw [if_neg (not_not_intro h0), if_neg (not_not_intro h1), if_pos hk2]
    · have h0 : s EM0 = 0 := hlt EM0 (by exact Fin.mk_lt_mk.mpr (by norm_num))
      have h1 : s EM1 = 0 := hlt EM1 (by exact Fin.mk_lt_mk.mpr (by norm_num))
      have h2 : s EM2 = 0 := hlt EM2 (by exact Fin.mk_lt_mk.mpr (by norm_num))
      have hk3 : s EM3 ≠ 0 := hk
      rw [if_neg (not_not_intro h0), if_neg (not_not_intro h1),
          if_neg (not_not_intro h2), if_pos hk3]
    · have h0 : s EM0 = 0 := hlt EM0 (by exact Fin.mk_lt_mk.mpr (by norm_num))
      have h1 : s EM1 = 0 := hlt EM1 (by exact Fin.mk_lt_mk.mpr (by norm_num))
      have h2 : s EM2 = 0 := hlt EM2 (by exact Fin.mk_lt_mk.mpr (by norm_num))
      have h3 : s EM3 = 0 := hlt EM3 (by exact Fin.mk_lt_mk.mpr (by norm_num))
      rw [if_neg (not_not_intro h0), if_neg (not_not_intro h1),
          if_neg (not_not_intro h2), if_neg (not_not_intro h3)]

/-- Witness for C3 at concrete counter states. -/
theorem C3_current_block_energy_mode_witness :
    current_block_energy_mode em_zero = MAX_ENERGY_MODES - 1 ∧
    current_block_energy_mode (fun j => if j = EM2 then 3 else 0) =
      (EM2 : Fin MAX_ENERGY_MODES).val :=
  ⟨(C3_current_block_energy_mode em_zero).1 (fun _ => rfl),
   (C3_current_block_energy_mode (fun j => if j = EM2 then 3 else 0)).2 EM2
     (by decide) (by decide)⟩

/-- C4, counterexample to the claim as stated: from the startup state, after
the balanced sequence `block EM2; block EM3; unblock EM3; unblock EM2`, at
the instant where both blocks are outstanding `current_block_energy_mode`
is 2, which is not `≥` the level 3 of the outstanding `block EM3` call. -/
theorem C4_counterexample : ¬ C4_as_stated := by
  intro h
  have h2 := (h [SleepCall.block EM2, SleepCall.block EM3, SleepCall.unblock EM3,
      SleepCall.unblock EM2] (by decide)).2
    [SleepCall.block EM2, SleepCall.block EM3]
    [SleepCall.unblock EM3, SleepCall.unblock EM2]
    _ EM3 rfl rfl (by decide)
  exact absurd h2 (by decide)

/-- C4 amended: for pairwise balanced call sequences that run without a fatal
assertion, `current_block_energy_mode` is identical before the first call and
after the last; and at every instant (counters starting nonnegative) its
value is `≤` the level of any call currently outstanding — the arbiter never
reports a mode deeper than an outstanding vote's level. -/
theorem C4_balanced_restores (s0 : EMState) (cs : List SleepCall) :
    (∀ sfin, sleep_run s0 cs = some sfin → balanced cs →
      current_block_energy_mode sfin = current_block_energy_mode s0) ∧
    (∀ (p q : List SleepCall) (sp : EMState) (em : Fin MAX_ENERGY_MODES),
      cs = p ++ q → (∀ i, 0 ≤ s0 i) → sleep_run s0 p = some sp →
      unblockCount em p < blockCount em p →
      current_block_energy_mode sp ≤ em.val) := by
  constructor
  · intro sfin h hbal
    have hst : sfin = s0 := funext (fun i => by
      have hc := sleep_run_counts cs s0 sfin h i
      have hb := hbal i
      omega)
    rw [hst]
  · intro p q sp em hcat hpos hrun hout
    have h1 := sleep_run_counts p s0 sp hrun em
    have h2 := hpos em
    exact cbem_le_of_ne_zero sp em (by omega)

/-- Witness for the amended C4 at a concrete balanced sequence and at a
concrete instant with an outstanding `block EM1`. -/
theorem C4_balanced_restores_witness :
    current_block_energy_mode em_zero = current_block_energy_mode em_zero ∧
    current_block_energy_mode (fun j => if j = EM1 then 1 else 0) ≤
      (EM1 : Fin MAX_ENERGY_MODES).val := by
  constructor
  · refine (C4_balanced_restores em_zero
      [SleepCall.block EM1, SleepCall.unblock EM1]).1 em_zero ?_ (by decide)
    refine congrArg some (funext (fun j => ?_))
    fin_cases j <;> rfl
  · exact (C4_balanced_restores em_zero [SleepCall.block EM1]).2
      [SleepCall.block EM1] [] _ EM1 rfl (fun i => le_refl 0) rfl (by decide)

/-- C6: posting an event twice before a drain leaves the same pending mask as
posting it once, and after the consumer drains and clears every pending
event the snapshot of pending events is zero. -/
theorem C6_scheduler_coalesce (sched event : Nat) (hs : sched < 2 ^ 32) :
    add_scheduled_event (add_scheduled_event sched event) event
      = add_scheduled_event sched event ∧
    get_scheduled_events
      (remove_scheduled_event sched (get_scheduled_events sched)) = 0 := by
  constructor
  · simp [add_scheduled_event, Nat.lor_assoc]
  · show sched &&& ((2 ^ 32 - 1) ^^^ sched) = 0
    apply Nat.eq_of_testBit_eq
    intro j
    simp only [Nat.testBit_and, Nat.testBit_xor, Nat.testBit_two_pow_sub_one,
      Nat.zero_testBit]
    by_cases hb : sched.testBit j = true
    · have hj : j < 32 := by
        by_contra hcon
        rw [testBit_false_of_lt hs (by omega)] at hb
        exact Bool.noConfusion hb
      simp [hb, hj]
    · have hb2 : sched.testBit j = false := by
        cases hx : sched.testBit j
        · rfl
        · exact absurd hx hb
      simp [hb2]

/-- Witness for C6 at a concrete mask and event. -/
theorem C6_scheduler_coalesce_witness :
    add_scheduled_event (add_scheduled_event 5 3) 3 = add_scheduled_event 5 3 ∧
    get_scheduled_events (remove_scheduled_event 5 (get_scheduled_events 5)) = 0 :=
  C6_scheduler_coalesce 5 3 (by norm_num)

/-- C8: `sleep_unblock_mode` on a level whose counter is zero fails the fatal
assertion; and along any call sequence that runs without a fatal assertion
from nonnegative counters, every counter stays nonnegative — a negative
counter is never observed without the assertion firing. -/
theorem C8_unblock_underflow (s : EMState) (em : Fin MAX_ENERGY_MODES)
    (cs : List SleepCall) (s0 sfin : EMState) :
    (s em = 0 → sleep_unblock_mode s em = none) ∧
    ((∀ i, 0 ≤ s0 i) → sleep_run s0 cs = some sfin → ∀ i, 0 ≤ sfin i) := by
  constructor
  · intro h
    rw [sleep_unblock_mode_eq, h]
    norm_num
  · intro hpos hrun
    exact sleep_run_nonneg cs s0 sfin hrun hpos

/-- Witness for C8: unblocking `EM2` from the startup state is fatal, and a
concrete successful run keeps the counters nonnegative. -/
theorem C8_unblock_underflow_witness :
    sleep_unblock_mode em_zero EM2 = none ∧
    0 ≤ (fun j => if j = EM0 then (1 : Int) else 0) EM4 := by
  constructor
  · exact (C8_unblock_underflow em_zero EM2 [] em_zero em_zero).1 rfl
  · exact (C8_unblock_underflow em_zero EM2 [SleepCall.block EM0] em_zero
      _).2 (fun i => le_refl 0) rfl EM4

/-- C9: on nonnegative counters, `enter_sleep` picks the transition strictly
shallower than the shallowest blocked level: it stays awake when `EM0` or
`EM1` has a vote, enters `EM1` when `EM2` is the shallowest vote, enters
`EM2` when `EM3` is the shallowest vote, and enters `EM3` when `EM0`..`EM3`
are all clear; the deepest counter `EM4` is never consulted, and any mode
actually entered is strictly shallower than `current_block_energy_mode`. -/
theorem C9_enter_sleep (s : EMState) (hpos : ∀ i, 0 ≤ s i) :
    ((s EM0 ≠ 0 ∨ s EM1 ≠ 0) → enter_sleep s = SleepTransition.stayAwake) ∧
    (s EM0 = 0 → s EM1 = 0 → s EM2 ≠ 0 → enter_sleep s = SleepTransition.enterEM1) ∧
    (s EM0 = 0 → s EM1 = 0 → s EM2 = 0 → s EM3 ≠ 0 →
      enter_sleep s = SleepTransition.enterEM2) ∧
    (s EM0 = 0 → s EM1 = 0 → s EM2 = 0 → s EM3 = 0 →
      enter_sleep s = SleepTransition.enterEM3) ∧
    (∀ t : EMState, s EM0 = t EM0 → s EM1 = t EM1 → s EM2 = t EM2 →
      s EM3 = t EM3 → enter_sleep s = enter_sleep t) ∧
    (∀ m, SleepTransition.enteredMode (enter_sleep s) = some m →
      m < current_block_energy_mode s) := by
  have p0 := hpos EM0
  have p1 := hpos EM1
  have p2 := hpos EM2
  have p3 := hpos EM3
  refine ⟨?_, ?_, ?_, ?_, ?_, ?_⟩
  · intro hne
    unfold enter_sleep
    rcases hne with hcase | hcase
    · rw [if_pos (by omega)]
    · by_cases h0 : s EM0 > 0
      · rw [if_pos h0]
      · rw [if_neg h0, if_pos (by omega)]
  · intro h0 h1 h2
    unfold enter_sleep
    rw [if_neg (by omega), if_neg (by omega), if_pos (by omega)]
  · intro h0 h1 h2 h3
    unfold enter_sleep
    rw [if_neg (by omega), if_neg (by omega), if_neg (by omega), if_pos (by omega)]
  · intro h0 h1 h2 h3
    unfold enter_sleep
    rw [if_neg (by omega), if_neg (by omega), if_neg (by omega), if_neg (by omega)]
  · intro t h0 h1 h2 h3
    unfold enter_sleep
    rw [h0, h1, h2, h3]
  · intro m hm
    unfold enter_sleep at hm
    rw [cbem_closed]
    by_cases h0 : s EM0 > 0
    · rw [if_pos h0] at hm
      exact absurd hm (by simp [SleepTransition.enteredMode])
    · rw [if_neg h0] at hm
      by_cases h1 : s EM1 > 0
      · rw [if_pos h1] at hm
        exact absurd hm (by simp [SleepTransition.enteredMode])
      · rw [if_neg h1] at hm
        by_cases h2 : s EM2 > 0
        · rw [if_pos h2] at hm
          simp only [SleepTransition.enteredMode, Option.some.injEq] at hm
          rw [if_neg (by omega), if_neg (by omega), if_pos (by omega)]
          omega
        · rw [if_neg h2] at hm
          by_cases h3 : s EM3 > 0
          · rw [if_pos h3] at hm
            simp only [SleepTransition.enteredMode, Option.some.injEq] at hm
            rw [if_neg (by omega), if_neg (by omega), if_neg (by omega),
              if_pos (by omega)]
            omega
          · rw [if_neg h3] at hm
            simp only [SleepTransition.enteredMode, Option.some.injEq] at hm
            rw [if_neg (by omega), if_neg (by omega), if_neg (by omega),
              if_neg (by omega)]
            omega

/-- Witness for C9 at a concrete state with only an `EM3` vote. -/
theorem C9_enter_sleep_witness :
    enter_sleep (fun j => if j = EM3 then 1 else 0) = SleepTransition.enterEM2 :=
  (C9_enter_sleep (fun j => if j = EM3 then 1 else 0) (by decide)).2.2.1
    (by decide) (by decide) (by decide) (by decide)

/-- C10: `sleep_open` zeroes exactly the counters of levels
`0 .. MAX_ENERGY_MODES - 2`; the deepest level's counter is left unchanged,
whatever its prior value. -/
theorem C10_sleep_open_deepest (s : EMState) (i : Fin MAX_ENERGY_MODES) :
    (i.val < MAX_ENERGY_MODES - 1 → sleep_open s i = 0) ∧
    (i.val = MAX_ENERGY_MODES - 1 → sleep_open s i = s i) := by
  have hval : sleep_open s i =
      (if i.val = 3 then 0 else if i.val = 2 then 0 else if i.val = 1 then 0
       else if i.val = 0 then 0 else s i) := rfl
  rw [hval]
  constructor
  · intro h
    have h4 : i.val < 4 := h
    split_ifs <;> first | rfl | omega
  · intro h
    have h4 : i.val = 4 := h
    rw [if_neg (by omega), if_neg (by omega), if_neg (by omega), if_neg (by omega)]

/-- Witness for C10 at a concrete counter state with value 7 everywhere. -/
theorem C10_sleep_open_deepest_witness :
    sleep_open (fun _ => 7) EM1 = 0 ∧
    sleep_open (fun _ => 7) EM4 = (fun _ => (7 : Int)) EM4 :=
  ⟨(C10_sleep_open_deepest (fun _ => 7) EM1).1 (by decide),
   (C10_sleep_open_deepest (fun _ => 7) EM4).2 (by decide)⟩

lemma Ack_Func_available (sm sm' : I2C_STATE_MACHINE) (hw : List HwAction)
    (h : Ack_Func sm = some (sm', hw)) : sm'.available = sm.available := by
  obtain ⟨da, av, mo, n0, ra, d0, cb, st⟩ := sm
  cases st <;> cases mo <;> simp only [Ack_Func] at h <;> (try split at h) <;>
    (first
      | exact Option.noConfusion h
      | (injection h with h1; injection h1 with h2 h3; rw [← h2]))

lemma Rxdatav_Func_available (sm sm' : I2C_STATE_MACHINE) (b : Nat) (hw : List HwAction)
    (h : Rxdatav_Func sm b = some (sm', hw)) : sm'.available = sm.available := by
  obtain ⟨da, av, mo, n0, ra, d0, cb, st⟩ := sm
  cases st <;> simp only [Rxdatav_Func] at h <;> (try split at h) <;>
    (first
      | exact Option.noConfusion h
      | (injection h with h1; injection h1 with h2 h3; rw [← h2]))

/-! ## Claims about the I2C bus transaction state machine -/

/-- C5: transactions on one instance are serialized by the `available` gate:
`i2c_start` is not accepted while `available` is false, an accepted start
implies `available` was true and clears it, the ACK and RXDATAV handlers
never change `available`, and only the terminal MSTOP transition (from
`recieve_data`) sets it back to true. -/
theorem C5_available_serializes (sys : SysState) (da d n ra cb b : Nat)
    (mode : OPERATION_MODE) :
    (sys.i2c.available = false → i2c_start sys da mode d n ra cb = none) ∧
    (∀ out, i2c_start sys da mode d n ra cb = some out →
      sys.i2c.available = true ∧ out.1.i2c.available = false) ∧
    (∀ out, i2c_step sys SubEvent.ack = some out →
      out.1.i2c.available = sys.i2c.available) ∧
    (∀ out, i2c_step sys (SubEvent.rxdatav b) = some out →
      out.1.i2c.available = sys.i2c.available) ∧
    (∀ out, i2c_step sys SubEvent.mstop = some out →
      sys.i2c.current_state = DEFINED_STATES.recieve_data ∧
      out.1.i2c.available = true) := by
  refine ⟨?_, ?_, ?_, ?_, ?_⟩
  · intro hav
    unfold i2c_start
    rw [if_pos hav]
  · intro out h
    unfold i2c_start at h
    by_cases hav : sys.i2c.available = false
    · rw [if_pos hav] at h
      exact Option.noConfusion h
    · refine ⟨by simpa using hav, ?_⟩
      rw [if_neg hav] at h
      cases hsl : sleep_block_mode sys.sleep I2C_EM_BLOCK with
      | none => rw [hsl] at h; exact Option.noConfusion h
      | some sl2 =>
        rw [hsl] at h
        injection h with h1
        rw [← h1]
  · intro out h
    simp only [i2c_step] at h
    cases hA : Ack_Func sys.i2c with
    | none => rw [hA] at h; exact Option.noConfusion h
    | some p =>
      rw [hA] at h
      injection h with h1
      rw [← h1]
      exact Ack_Func_available sys.i2c p.1 p.2 (by rw [hA])
  · intro out h
    simp only [i2c_step] at h
    cases hA : Rxdatav_Func sys.i2c b with
    | none => rw [hA] at h; exact Option.noConfusion h
    | some p =>
      rw [hA] at h
      injection h with h1
      rw [← h1]
      exact Rxdatav_Func_available sys.i2c p.1 b p.2 (by rw [hA])
  · intro out h
    simp only [i2c_step] at h
    obtain ⟨⟨da0, av0, mo0, n0, ra0, d0, cb0, st0⟩, sl0, sc0⟩ := sys
    cases st0 <;> simp only [Stop_Func] at h
    case recieve_data =>
      cases hu : sleep_unblock_mode sl0 I2C_EM_BLOCK with
      | none => rw [hu] at h; exact Option.noConfusion h
      | some sl2 =>
        rw [hu] at h
        injection h with h1
        rw [← h1]
        exact ⟨rfl, rfl⟩
    all_goals exact Option.noConfusion h

/-- Witness for C5 at concrete busy and idle instances. -/
theorem C5_available_serializes_witness :
    i2c_start sysMidRead 0x55 OPERATION_MODE.read 0 2 0x13 1 = none :=
  (C5_available_serializes sysMidRead 0x55 0 2 0x13 1 0 OPERATION_MODE.read).1 rfl

/-- C7: an ACK in `write_data` decrements the remaining count and transmits
the next buffer byte most-significant-byte-first (the byte at offset
`8 * (count - 1)`); when the count reaches zero the handler issues a stop
and moves to the await-stop state (`recieve_data`) instead of expecting a
further acknowledge. The final conjunct is the spec scenario: a 1-byte
write of `0x11` to register `0x0B` reaches the await-stop state with zero
remaining bytes after the second ACK, having transmitted `0x11`. -/
theorem C7_write_data_ack (sm : I2C_STATE_MACHINE)
    (hst : sm.current_state = DEFINED_STATES.write_data)
    (hn : 1 ≤ sm.num_of_data_bytes) :
    Ack_Func sm = some
      ({ sm with
         num_of_data_bytes := sm.num_of_data_bytes - 1,
         current_state := if sm.num_of_data_bytes = 1
           then DEFINED_STATES.recieve_data else DEFINED_STATES.write_data },
       HwAction.txdata ((sm.data >>> (8 * (sm.num_of_data_bytes - 1))) &&& 0xff) ::
         (if sm.num_of_data_bytes = 1 then [HwAction.cmdStop] else [])) ∧
    (∃ st1 hw1, i2c_start sysIdle 0x55 OPERATION_MODE.write 0x11 1 0x0B 4
        = some (st1, hw1) ∧
      ∃ out, i2c_run st1 [SubEvent.ack, SubEvent.ack] = some out ∧
        out.1.i2c.current_state = DEFINED_STATES.recieve_data ∧
        out.1.i2c.num_of_data_bytes = 0 ∧
        HwAction.txdata 0x11 ∈ out.2.1) := by
  constructor
  · obtain ⟨da, av, mo, n0, ra, d0, cb, st⟩ := sm
    simp only at hst hn
    subst hst
    have hdec : dec32 n0 = n0 - 1 := by
      unfold dec32
      rw [if_neg (by omega)]
    by_cases h1 : n0 = 1
    · subst h1
      simp [Ack_Func, dec32]
    · simp only [Ack_Func, hdec]
      rw [if_neg (by omega), if_neg h1, if_neg h1]
  · exact ⟨_, _, rfl, _, rfl, rfl, rfl, by decide⟩

/-- Witness for C7 at the concrete data-phase state of the 1-byte write. -/
theorem C7_write_data_ack_witness :
    Ack_Func
        { device_address := 0x55, available := false, mode := OPERATION_MODE.write,
          num_of_data_bytes := 1, desired_register_address := 0x0B, data := 0x11,
          I2C_CB := 4, current_state := DEFINED_STATES.write_data }
      = some
        ({ device_address := 0x55, available := false, mode := OPERATION_MODE.write,
           num_of_data_bytes := 0, desired_register_address := 0x0B, data := 0x11,
           I2C_CB := 4, current_state := DEFINED_STATES.recieve_data },
         [HwAction.txdata 0x11, HwAction.cmdStop]) := by
  have h := (C7_write_data_ack
    { device_address := 0x55, available := false, mode := OPERATION_MODE.write,
      num_of_data_bytes := 1, desired_register_address := 0x0B, data := 0x11,
      I2C_CB := 4, current_state := DEFINED_STATES.write_data } rfl (by norm_num)).1
  simpa using h

/-- C2, counterexample to the claim as stated: an `AddressAcknowledged`
delivered in the read-restart/receiving state (`initialize_device_read`) is
not listed as expected by the specification's transition table, yet
`Ack_Func` silently ignores it (a bare `break`) instead of reporting a
fatal error. -/
theorem C2_counterexample : ¬ C2_as_stated := by
  intro h
  have h2 := h sysMidRead SubEvent.ack rfl
  rw [show i2c_step sysMidRead SubEvent.ack = some (sysMidRead, [], []) from rfl] at h2
  exact Option.noConfusion h2

set_option linter.unnecessarySeqFocus false in
/-- C2 amended: while a transaction's arbiter vote is outstanding, a
sub-event is fatal exactly when the specification's transition table does
not expect it in the current state, except for `AddressAcknowledged` in
`initialize_device_read` (the restart-ACK/receiving phase) and in
`recieve_data` (await stop) — the two acknowledge pulses the hardware
delivers without needing any action — which the handler silently ignores,
leaving the state unchanged and issuing no command. -/
theorem C2_unexpected_fatal (sys : SysState) (e : SubEvent)
    (hvote : 0 < sys.sleep I2C_EM_BLOCK) :
    (i2c_step sys e = none ↔
      (spec_expects e sys.i2c.current_state = false ∧
        ¬ (e = SubEvent.ack ∧
          (sys.i2c.current_state = DEFINED_STATES.initialize_device_read ∨
           sys.i2c.current_state = DEFINED_STATES.recieve_data)))) ∧
    (e = SubEvent.ack →
      (sys.i2c.current_state = DEFINED_STATES.initialize_device_read ∨
       sys.i2c.current_state = DEFINED_STATES.recieve_data) →
      i2c_step sys e = some (sys, [], [])) := by
  obtain ⟨⟨da0, av0, mo0, n0, ra0, d0, cb0, st0⟩, sl0, sc0⟩ := sys
  simp only at hvote
  constructor
  · cases e with
    | ack =>
      cases st0 <;> cases mo0 <;>
        simp [i2c_step, Ack_Func, spec_expects] <;>
        (try split_ifs) <;> simp
    | rxdatav b =>
      cases st0 <;>
        simp [i2c_step, Rxdatav_Func, spec_expects] <;>
        (try split_ifs) <;> simp
    | mstop =>
      have hv : (0 : Int) ≤ sl0 I2C_EM_BLOCK - 1 := by omega
      cases st0 <;>
        simp [i2c_step, Stop_Func, spec_expects, sleep_unblock_mode_eq, hv]
  · intro he hst
    subst he
    rcases hst with hst | hst <;> (simp only at hst; subst hst; rfl)

/-- Witness for the amended C2: with the vote outstanding, MSTOP in the
data-write state is fatal, and an ACK in the receiving state is silently
ignored. -/
theorem C2_unexpected_fatal_witness :
    i2c_step sysMidRead SubEvent.mstop = none ∧
    i2c_step sysMidRead SubEvent.ack = some (sysMidRead, [], []) := by
  constructor
  · exact ((C2_unexpected_fatal sysMidRead SubEvent.mstop (by decide)).1).mpr
      (by refine ⟨rfl, ?_⟩; rintro ⟨h, _⟩; exact SubEvent.noConfusion h)
  · exact (C2_unexpected_fatal sysMidRead SubEvent.ack (by decide)).2 rfl (Or.inl rfl)

lemma byte_update_eq (Q c r b k : Nat) (hc : c < 256) (hr : r < 2 ^ (8 * k))
    (hb : b < 256) (hk : k ≤ 3) (hQ : Q < 2 ^ (32 - 8 * (k + 1))) :
    (((2 ^ (8 * (k + 1)) * Q + (2 ^ (8 * k) * c + r)) &&& not32 (0xff <<< (8 * k))) |||
        (b <<< (8 * k)))
      = 2 ^ (8 * (k + 1)) * Q + (2 ^ (8 * k) * b + r) := by
  have hpow : 2 ^ (8 * (k + 1)) = 2 ^ (8 * k) * 256 := by
    rw [show 8 * (k + 1) = 8 * k + 8 by ring, pow_add]
    norm_num
  have hcr : 2 ^ (8 * k) * c + r < 2 ^ (8 * (k + 1)) := by
    calc 2 ^ (8 * k) * c + r < 2 ^ (8 * k) * c + 2 ^ (8 * k) := by omega
    _ = 2 ^ (8 * k) * (c + 1) := by ring
    _ ≤ 2 ^ (8 * k) * 256 := Nat.mul_le_mul_left _ (by omega)
    _ = 2 ^ (8 * (k + 1)) := hpow.symm
  have hbr : 2 ^ (8 * k) * b + r < 2 ^ (8 * (k + 1)) := by
    calc 2 ^ (8 * k) * b + r < 2 ^ (8 * k) * b + 2 ^ (8 * k) := by omega
    _ = 2 ^ (8 * k) * (b + 1) := by ring
    _ ≤ 2 ^ (8 * k) * 256 := Nat.mul_le_mul_left _ (by omega)
    _ = 2 ^ (8 * (k + 1)) := hpow.symm
  apply Nat.eq_of_testBit_eq
  intro j
  rw [not32, show (0xff : Nat) = 2 ^ 8 - 1 from rfl]
  simp only [Nat.testBit_or, Nat.testBit_and, Nat.testBit_xor, Nat.testBit_shiftLeft,
    Nat.testBit_two_pow_sub_one, Nat.testBit_mul_pow_two_add Q hcr,
    Nat.testBit_mul_pow_two_add Q hbr, Nat.testBit_mul_pow_two_add c hr,
    Nat.testBit_mul_pow_two_add b hr]
  rcases Nat.lt_or_ge j (8 * k) with hj0 | hj0
  · have h1 : j < 8 * (k + 1) := by omega
    have h2 : j < 32 := by omega
    have h3 : ¬ (8 * k ≤ j) := by omega
    simp [h1, h2, h3, hj0]
  · rcases Nat.lt_or_ge j (8 * (k + 1)) with hj1 | hj1
    · have h2 : j < 32 := by omega
      have h4 : j - 8 * k < 8 := by omega
      have h5 : ¬ (j < 8 * k) := by omega
      simp [hj0, hj1, h2, h4, h5]
    · have h5 : ¬ (j < 8 * (k + 1)) := by omega
      have h3 : 8 * k ≤ j := by omega
      have h4 : ¬ (j - 8 * k < 8) := by omega
      have hbb : Nat.testBit b (j - 8 * k) = false :=
        testBit_false_of_lt (show b < 2 ^ 8 by omega) (by omega)
      rcases Nat.lt_or_ge j 32 with hj2 | hj2
      · simp [hj0, h5, h3, h4, hbb, hj2]
      · have hQb : Nat.testBit Q (j - 8 * (k + 1)) = false :=
          testBit_false_of_lt hQ (by omega)
        have h2 : ¬ (j < 32) := by omega
        simp [hj0, h5, h3, h4, hbb, h2, hQb]

lemma rx_step_mid (sys : SysState) (b Q c r' k : Nat)
    (hk1 : 1 ≤ k) (hk : k ≤ 3)
    (hst : sys.i2c.current_state = DEFINED_STATES.initialize_device_read)
    (hnum : sys.i2c.num_of_data_bytes = k + 1)
    (hdata : sys.i2c.data = 2 ^ (8 * (k + 1)) * Q + (2 ^ (8 * k) * c + r'))
    (hc : c < 256) (hr : r' < 2 ^ (8 * k)) (hb : b < 256)
    (hQ : Q < 2 ^ (32 - 8 * (k + 1))) :
    i2c_step sys (SubEvent.rxdatav b) = some
      ({ sys with i2c := { sys.i2c with
          num_of_data_bytes := k,
          data := 2 ^ (8 * k) * (256 * Q + b) + r' } }, [HwAction.cmdAck], []) := by
  have hpow : 2 ^ (8 * (k + 1)) = 2 ^ (8 * k) * 256 := by
    rw [show 8 * (k + 1) = 8 * k + 8 by ring, pow_add]
    norm_num
  have hval : (((2 ^ (8 * (k + 1)) * Q + (2 ^ (8 * k) * c + r')) &&&
        not32 (0xff <<< (8 * k))) ||| (b <<< (8 * k)))
      = 2 ^ (8 * (k + 1)) * Q + (2 ^ (8 * k) * b + r') :=
    byte_update_eq Q c r' b k hc hr hb hk hQ
  have hlt : 2 ^ (8 * (k + 1)) * Q + (2 ^ (8 * k) * b + r') < 2 ^ 32 := by
    have h1 : 2 ^ (8 * k) * b + r' < 2 ^ (8 * (k + 1)) := by
      calc 2 ^ (8 * k) * b + r' < 2 ^ (8 * k) * b + 2 ^ (8 * k) := by omega
      _ = 2 ^ (8 * k) * (b + 1) := by ring
      _ ≤ 2 ^ (8 * k) * 256 := Nat.mul_le_mul_left _ (by omega)
      _ = 2 ^ (8 * (k + 1)) := hpow.symm
    have h2 : 2 ^ (32 - 8 * (k + 1)) * 2 ^ (8 * (k + 1)) = 2 ^ 32 := by
      rw [← pow_add]
      congr 1
      omega
    calc 2 ^ (8 * (k + 1)) * Q + (2 ^ (8 * k) * b + r')
        < 2 ^ (8 * (k + 1)) * Q + 2 ^ (8 * (k + 1)) := by omega
    _ = 2 ^ (8 * (k + 1)) * (Q + 1) := by ring
    _ ≤ 2 ^ (8 * (k + 1)) * 2 ^ (32 - 8 * (k + 1)) := Nat.mul_le_mul_left _ (by omega)
    _ = 2 ^ 32 := by rw [Nat.mul_comm]; exact h2
  obtain ⟨⟨da, av, mo, n0, ra, d0, cb, st⟩, sl, sc⟩ := sys
  simp only at hst hnum hdata
  subst hst hnum hdata
  simp only [i2c_step, Rxdatav_Func]
  have hdec : dec32 (k + 1) = k := by
    unfold dec32
    rw [if_neg (by omega)]
    omega
  rw [hdec, if_pos (by omega)]
  simp only [Option.map_some']
  rw [hval, Nat.mod_eq_of_lt hlt]
  have harith : 2 ^ (8 * (k + 1)) * Q + (2 ^ (8 * k) * b + r')
      = 2 ^ (8 * k) * (256 * Q + b) + r' := by
    rw [hpow]
    ring
  rw [harith]

lemma rx_step_last (sys : SysState) (b Q r' : Nat)
    (hst : sys.i2c.current_state = DEFINED_STATES.initialize_device_read)
    (hnum : sys.i2c.num_of_data_bytes = 1)
    (hdata : sys.i2c.data = 2 ^ 8 * Q + r')
    (hr : r' < 256) (hb : b < 256) (hQ : Q < 2 ^ 24) :
    i2c_step sys (SubEvent.rxdatav b) = some
      ({ sys with i2c := { sys.i2c with
          num_of_data_bytes := 0,
          data := 256 * Q + b,
          current_state := DEFINED_STATES.recieve_data } },
       [HwAction.cmdNack, HwAction.cmdStop], []) := by
  have hval : (((2 ^ (8 * (0 + 1)) * Q + (2 ^ (8 * 0) * r' + 0)) &&&
        not32 (0xff <<< (8 * 0))) ||| (b <<< (8 * 0)))
      = 2 ^ (8 * (0 + 1)) * Q + (2 ^ (8 * 0) * b + 0) :=
    byte_update_eq Q r' 0 b 0 hr (by norm_num) hb (by norm_num) (by exact hQ)
  have hd : sys.i2c.data = 2 ^ (8 * (0 + 1)) * Q + (2 ^ (8 * 0) * r' + 0) := by
    rw [hdata]
    norm_num
  have hlt : 2 ^ (8 * (0 + 1)) * Q + (2 ^ (8 * 0) * b + 0) < 2 ^ 32 := by
    norm_num
    calc 2 ^ 8 * Q + b < 2 ^ 8 * Q + 2 ^ 8 := by omega
    _ = 2 ^ 8 * (Q + 1) := by ring
    _ ≤ 2 ^ 8 * 2 ^ 24 := Nat.mul_le_mul_left _ (by omega)
    _ = 2 ^ 32 := by norm_num
  obtain ⟨⟨da, av, mo, n0, ra, d0, cb, st⟩, sl, sc⟩ := sys
  simp only at hst hnum hd
  subst hst hnum hd
  simp only [i2c_step, Rxdatav_Func]
  have hdec : dec32 1 = 0 := by norm_num [dec32]
  rw [hdec, if_neg (by omega)]
  simp only [Option.map_some']
  rw [show (8 : Nat) * 0 = 0 from rfl] at hval
  rw [hval, Nat.mod_eq_of_lt hlt]
  have harith : 2 ^ (8 * (0 + 1)) * Q + (2 ^ (8 * 0) * b + 0) = 256 * Q + b := by
    norm_num
  rw [harith]

lemma i2c_run_one (sys s' : SysState) (e : SubEvent) (hw1 : List HwAction)
    (ps1 : List Nat) (hstep : i2c_step sys e = some (s', hw1, ps1)) :
    i2c_run sys [e] = some (s', hw1 ++ [], ps1 ++ []) := by
  simp only [i2c_run, hstep]

lemma i2c_run_cons (sys s' : SysState) (e : SubEvent) (es : List SubEvent)
    (hw1 : List HwAction) (ps1 : List Nat)
    (out : SysState × List HwAction × List Nat)
    (hstep : i2c_step sys e = some (s', hw1, ps1))
    (hrun : i2c_run s' es = some out) :
    i2c_run sys (e :: es) = some (out.1, hw1 ++ out.2.1, ps1 ++ out.2.2) := by
  simp only [i2c_run, hstep, hrun]

set_option maxHeartbeats 800000 in
lemma i2c_rx_run : ∀ (bs : List Nat) (P r : Nat) (sys : SysState),
    bs ≠ [] → (∀ x ∈ bs, x < 256) → 8 * bs.length ≤ 32 →
    (P + 1) * 2 ^ (8 * bs.length) ≤ 2 ^ 32 →
    r < 2 ^ (8 * bs.length) →
    sys.i2c.current_state = DEFINED_STATES.initialize_device_read →
    sys.i2c.num_of_data_bytes = bs.length →
    sys.i2c.data = 2 ^ (8 * bs.length) * P + r →
    ∃ hw, i2c_run sys (bs.map SubEvent.rxdatav) =
      some ({ sys with i2c := { sys.i2c with
                num_of_data_bytes := 0,
                data := packFrom P bs,
                current_state := DEFINED_STATES.recieve_data } }, hw, []) := by
  intro bs
  induction bs with
  | nil => intro P r sys hne; exact absurd rfl hne
  | cons b bs ih =>
    intro P r sys hne hmem hlen hbound hr hst hnum hdata
    have hb : b < 256 := hmem b (by simp)
    cases bs with
    | nil =>
      have hP24 : P < 2 ^ 24 := by
        have h1 : (P + 1) * 2 ^ 8 ≤ 2 ^ 32 := by simpa using hbound
        have h3 : P + 1 ≤ 2 ^ 24 :=
          Nat.le_of_mul_le_mul_right (by norm_num at h1 ⊢; omega)
            (by norm_num : (0 : Nat) < 2 ^ 8)
        omega
      have hr8 : r < 256 := by
        have h2 : (2 : Nat) ^ (8 * [b].length) = 256 := by norm_num
        omega
      have hd : sys.i2c.data = 2 ^ 8 * P + r := by
        rw [hdata]
        norm_num
      have hstep := rx_step_last sys b P r hst (by simpa using hnum) hd hr8 hb hP24
      exact ⟨[HwAction.cmdNack, HwAction.cmdStop],
        i2c_run_one sys _ (SubEvent.rxdatav b) _ _ hstep⟩
    | cons b2 bs2 =>
      have hlen2 : 8 * (bs2.length + 2) ≤ 32 := by simpa using hlen
      have hk1 : 1 ≤ bs2.length + 1 := by omega
      have hk3 : bs2.length + 1 ≤ 3 := by omega
      have hpow : 2 ^ (8 * (bs2.length + 1 + 1)) = 2 ^ (8 * (bs2.length + 1)) * 256 := by
        rw [show 8 * (bs2.length + 1 + 1) = 8 * (bs2.length + 1) + 8 by ring, pow_add]
        norm_num
      have hbound2 : (P + 1) * 2 ^ (8 * (bs2.length + 1 + 1)) ≤ 2 ^ 32 := hbound
      have hr2 : r < 2 ^ (8 * (bs2.length + 1 + 1)) := hr
      have hQ : P < 2 ^ (32 - 8 * (bs2.length + 1 + 1)) := by
        have h2 : 2 ^ (32 - 8 * (bs2.length + 1 + 1)) * 2 ^ (8 * (bs2.length + 1 + 1))
            = 2 ^ 32 := by
          rw [← pow_add]
          congr 1
          omega
        have h3 : P + 1 ≤ 2 ^ (32 - 8 * (bs2.length + 1 + 1)) := by
          refine Nat.le_of_mul_le_mul_right ?_ (Nat.two_pow_pos (8 * (bs2.length + 1 + 1)))
          rw [h2]
          exact hbound2
        omega
      have hc : r / 2 ^ (8 * (bs2.length + 1)) < 256 := by
        refine Nat.div_lt_of_lt_mul ?_
        rw [← hpow]
        exact hr2
      have hr' : r % 2 ^ (8 * (bs2.length + 1)) < 2 ^ (8 * (bs2.length + 1)) :=
        Nat.mod_lt _ (Nat.two_pow_pos _)
      have hd : sys.i2c.data = 2 ^ (8 * (bs2.length + 1 + 1)) * P +
          (2 ^ (8 * (bs2.length + 1)) * (r / 2 ^ (8 * (bs2.length + 1))) +
            r % 2 ^ (8 * (bs2.length + 1))) := by
        rw [hdata, Nat.div_add_mod]
        rfl
      have hstep := rx_step_mid sys b P (r / 2 ^ (8 * (bs2.length + 1)))
        (r % 2 ^ (8 * (bs2.length + 1))) (bs2.length + 1)
        hk1 hk3 hst hnum hd hc hr' hb hQ
      have hnext := ih (256 * P + b) (r % 2 ^ (8 * (bs2.length + 1)))
        ({ sys with i2c := { sys.i2c with
            num_of_data_bytes := bs2.length + 1,
            data := 2 ^ (8 * (bs2.length + 1)) * (256 * P + b) +
              r % 2 ^ (8 * (bs2.length + 1)) } })
        (by simp) (fun x hx => hmem x (List.mem_cons_of_mem _ hx))
        (by simp only [List.length_cons]; omega)
        (by
          have hble : 256 * P + b + 1 ≤ 256 * (P + 1) := by omega
          calc (256 * P + b + 1) * 2 ^ (8 * (bs2.length + 1))
              ≤ 256 * (P + 1) * 2 ^ (8 * (bs2.length + 1)) :=
                Nat.mul_le_mul_right _ hble
          _ = (P + 1) * 2 ^ (8 * (bs2.length + 1 + 1)) := by rw [hpow]; ring
          _ ≤ 2 ^ 32 := hbound2)
        hr' hst rfl rfl
      obtain ⟨hw', hrun'⟩ := hnext
      exact ⟨HwAction.cmdAck :: hw',
        i2c_run_cons sys _ (SubEvent.rxdatav b) _ _ _ _ hstep hrun'⟩

lemma i2c_run_append_some (sys : SysState) (xs ys : List SubEvent)
    (mid out : SysState × List HwAction × List Nat)
    (hxs : i2c_run sys xs = some mid)
    (hys : i2c_run mid.1 ys = some out) :
    i2c_run sys (xs ++ ys) = some (out.1, mid.2.1 ++ out.2.1, mid.2.2 ++ out.2.2) := by
  induction xs generalizing sys mid with
  | nil =>
    simp only [i2c_run, Option.some.injEq] at hxs
    subst hxs
    simp only [List.nil_append]
    simpa using hys
  | cons e xs ih =>
    simp only [i2c_run] at hxs
    cases hstep : i2c_step sys e with
    | none =>
      simp only [hstep] at hxs
      exact Option.noConfusion hxs
    | some trip =>
      obtain ⟨s1, hw1, ps1⟩ := trip
      simp only [hstep] at hxs
      cases hrec : i2c_run s1 xs with
      | none =>
        simp only [hrec] at hxs
        exact Option.noConfusion hxs
      | some mid2 =>
        obtain ⟨s2, hw2, ps2⟩ := mid2
        simp only [hrec, Option.some.injEq] at hxs
        subst hxs
        have hrest := ih s1 (s2, hw2, ps2) hrec hys
        show i2c_run sys (e :: (xs ++ ys)) = _
        simp only [i2c_run, hstep, hrest]
        simp [List.append_assoc]

lemma i2c_stop_step (sys : SysState)
    (hst : sys.i2c.current_state = DEFINED_STATES.recieve_data)
    (hvote : 0 < sys.sleep I2C_EM_BLOCK) :
    i2c_step sys SubEvent.mstop = some
      ({ i2c := { sys.i2c with
            available := true,
            current_state := DEFINED_STATES.initialize_device_write },
         sleep := fun j => if j = I2C_EM_BLOCK then sys.sleep j - 1 else sys.sleep j,
         sched := add_scheduled_event sys.sched sys.i2c.I2C_CB },
       [], [sys.i2c.I2C_CB]) := by
  obtain ⟨⟨da, av, mo, n0, ra, d0, cb, st⟩, sl, sc⟩ := sys
  simp only at hst hvote
  subst hst
  simp only [i2c_step, Stop_Func, sleep_unblock_mode_eq]
  rw [if_pos (by simpa using (by omega : (0 : Int) ≤ sl I2C_EM_BLOCK - 1))]

/-- C1: an in-flight Read transaction with `N` remaining bytes (`1 ≤ N ≤ 4`,
fresh buffer word) that is delivered `N` `ByteAvailable` sub-events carrying
`bytes` and then one `StopConditionObserved` ends with the buffer holding
the `N` bytes packed most-significant-byte-first, zero remaining bytes,
`available` back to true, the `EM2` arbiter vote released (only the `EM2`
counter changes), and exactly one completion event with the registered id
posted to the scheduler. -/
theorem C1_read_transaction (N : Nat) (bytes : List Nat) (sys : SysState)
    (hN1 : 1 ≤ N) (hN4 : N ≤ 4) (hlen : bytes.length = N)
    (hmem : ∀ x ∈ bytes, x < 256)
    (hst : sys.i2c.current_state = DEFINED_STATES.initialize_device_read)
    (hnum : sys.i2c.num_of_data_bytes = N)
    (hdata : sys.i2c.data < 2 ^ (8 * N))
    (hvote : 0 < sys.sleep I2C_EM_BLOCK) :
    ∃ out, i2c_run sys (bytes.map SubEvent.rxdatav ++ [SubEvent.mstop]) = some out ∧
      out.1.i2c.data = packBytes bytes ∧
      out.1.i2c.num_of_data_bytes = 0 ∧
      out.1.i2c.available = true ∧
      out.1.sleep I2C_EM_BLOCK = sys.sleep I2C_EM_BLOCK - 1 ∧
      (∀ j, j ≠ I2C_EM_BLOCK → out.1.sleep j = sys.sleep j) ∧
      out.1.sched = add_scheduled_event sys.sched sys.i2c.I2C_CB ∧
      out.2.2 = [sys.i2c.I2C_CB] := by
  have hne : bytes ≠ [] := by
    intro hcon
    rw [hcon] at hlen
    simp at hlen
    omega
  have hlen8 : 8 * bytes.length ≤ 32 := by omega
  have hbound : (0 + 1) * 2 ^ (8 * bytes.length) ≤ 2 ^ 32 := by
    have := Nat.pow_le_pow_right (show 1 ≤ 2 by norm_num) hlen8
    omega
  have hdata' : sys.i2c.data = 2 ^ (8 * bytes.length) * 0 + sys.i2c.data := by
    omega
  obtain ⟨hw, hrun⟩ := i2c_rx_run bytes 0 sys.i2c.data sys hne hmem hlen8 hbound
    (by rw [hlen]; exact hdata) hst (by rw [hnum, hlen]) hdata'
  have hstop := i2c_stop_step
    ({ sys with i2c := { sys.i2c with
        num_of_data_bytes := 0,
        data := packFrom 0 bytes,
        current_state := DEFINED_STATES.recieve_data } })
    rfl hvote
  have hone := i2c_run_one _ _ SubEvent.mstop _ _ hstop
  have happ := i2c_run_append_some sys (bytes.map SubEvent.rxdatav) [SubEvent.mstop]
    _ _ hrun hone
  exact ⟨_, happ, rfl, rfl, rfl, rfl, fun j hj => by simp [hj], rfl, rfl⟩

/-- Witness for C1: the spec scenario — a 2-byte read of register `0x13`
with completion id bit 1, delivered bytes `0x00` then `0x0A` and a stop;
the buffer ends as `0x000A` (`packBytes [0x00, 0x0A]`), the vote is
released and the event is pending. -/
theorem C1_read_transaction_witness :
    ∃ out, i2c_run sysMidRead
        ([0x00, 0x0A].map SubEvent.rxdatav ++ [SubEvent.mstop]) = some out ∧
      out.1.i2c.data = packBytes [0x00, 0x0A] ∧
      out.1.i2c.num_of_data_bytes = 0 ∧
      out.1.i2c.available = true ∧
      out.1.sleep I2C_EM_BLOCK = sysMidRead.sleep I2C_EM_BLOCK - 1 ∧
      (∀ j, j ≠ I2C_EM_BLOCK → out.1.sleep j = sysMidRead.sleep j) ∧
      out.1.sched = add_scheduled_event sysMidRead.sched sysMidRead.i2c.I2C_CB ∧
      out.2.2 = [sysMidRead.i2c.I2C_CB] :=
  C1_read_transaction 2 [0x00, 0x0A] sysMidRead (by norm_num) (by norm_num) rfl
    (by decide) rfl rfl (by decide) (by decide)
